import Mathlib

set_option maxHeartbeats 1000000

/-!
Shallow embedding of the open-up-signaling WebSocket signaling server.

The mutable JavaScript `Map`s of the server (`connectionCounts`, `clients`,
`rooms`, `roomCodeToId`, `roomIdToCode`) are embedded as association lists
with JavaScript `Map` semantics (`get` returns the first match, `set`
replaces in place or appends, `delete` removes the entry).  Socket sends are
modelled by an `outbox` list of (recipient socket, message) pairs and socket
closes by a `closes` list of (socket, close code) pairs.  The message codec
of messages.ts is embedded at the level of the parsed JSON object
(`SignalingContent`); the JSON string layer is the runtime's
`JSON.stringify`/`JSON.parse` pair, which is the identity on these records.
-/

/-- Association-list lookup mirroring JavaScript `Map.get` (first match wins). -/
def mget {α : Type} : List (String × α) → String → Option α
  | [], _ => none
  | (k1, v1) :: rest, k => if k1 = k then some v1 else mget rest k

/-- Association-list update mirroring `Map.set`: replaces the value in place
when the key is present, otherwise appends at the end (insertion order). -/
def mset {α : Type} : List (String × α) → String → α → List (String × α)
  | [], k, v => [(k, v)]
  | (k1, v1) :: rest, k, v =>
      if k1 = k then (k, v) :: rest else (k1, v1) :: mset rest k v

/-- Association-list removal mirroring `Map.delete`. -/
def mdelete {α : Type} : List (String × α) → String → List (String × α)
  | [], _ => []
  | (k1, v1) :: rest, k => if k1 = k then rest else (k1, v1) :: mdelete rest k

/-- Mirror of `Map.has`. -/
def mhas {α : Type} (l : List (String × α)) (k : String) : Bool :=
  (mget l k).isSome

/-- Keys of an association list. -/
def keys {α : Type} (l : List (String × α)) : List String :=
  l.map Prod.fst

/-! ## Message codec (messages.ts) -/

/-- Typed signaling messages, one constructor per subclass of
`SignalingMessage` in messages.ts.  Each constructor carries exactly the
fields its TS constructor stores; fields the TS constructor pins to a fixed
value (`targetId = ''` for CreateRoom/JoinRoom/JoinOrCreate/LeaveRoom,
`senderId = ''` for Error) are omitted and reproduced by the accessors.
Opaque WebRTC payloads (session descriptions, ICE candidates) are opaque
strings. -/
inductive SignalingMessage : Type where
  | offer (targetId senderId payload : String)
  | answer (targetId senderId payload : String)
  | iceCandidate (targetId senderId payload : String)
  | clientId (targetId senderId id : String)
  | peerList (targetId senderId : String) (peers : List String) (roomCode roomId : String)
  | createRoom (senderId roomCode : String)
  | joinRoom (senderId roomCode : String)
  | joinOrCreate (senderId roomId : String)
  | leaveRoom (senderId : String)
  | error (targetId message : String)
deriving DecidableEq

/-- Accessor for the `senderId` field of the TS base class (Error pins it to ''). -/
def SignalingMessage.senderId : SignalingMessage → String
  | .offer _ s _ => s
  | .answer _ s _ => s
  | .iceCandidate _ s _ => s
  | .clientId _ s _ => s
  | .peerList _ s _ _ _ => s
  | .createRoom s _ => s
  | .joinRoom s _ => s
  | .joinOrCreate s _ => s
  | .leaveRoom s => s
  | .error _ _ => ""

/-- Accessor for the `targetId` field of the TS base class (room-management
messages pin it to ''). -/
def SignalingMessage.targetId : SignalingMessage → String
  | .offer t _ _ => t
  | .answer t _ _ => t
  | .iceCandidate t _ _ => t
  | .clientId t _ _ => t
  | .peerList t _ _ _ _ => t
  | .createRoom _ _ => ""
  | .joinRoom _ _ => ""
  | .joinOrCreate _ _ => ""
  | .leaveRoom _ => ""
  | .error t _ => t

/-- The parsed JSON envelope (`SignalingContent` in messages.ts): tag plus
optional type-specific fields.  `type` is optional because `fromJson` checks
`content.type == null`. -/
structure SignalingContent where
  type : Option Nat := none
  targetId : String := ""
  senderId : String := ""
  offer : Option String := none
  answer : Option String := none
  iceCandidate : Option String := none
  clientId : Option String := none
  peerList : Option (List String) := none
  roomCode : Option String := none
  roomId : Option String := none
  errorMessage : Option String := none
deriving DecidableEq

/-- Encoding: the `toContent` override chain of each message subclass
(`toJson` is `JSON.stringify` of this record).  Type tags follow the
`SignalingMessageType` enum (0 Offer .. 8 Error, 9 JoinOrCreate). -/
def toContent : SignalingMessage → SignalingContent
  | .offer t s p => { type := some 0, targetId := t, senderId := s, offer := some p }
  | .answer t s p => { type := some 1, targetId := t, senderId := s, answer := some p }
  | .iceCandidate t s p =>
      { type := some 2, targetId := t, senderId := s, iceCandidate := some p }
  | .clientId t s i => { type := some 3, targetId := t, senderId := s, clientId := some i }
  | .peerList t s pl c r =>
      { type := some 4, targetId := t, senderId := s, peerList := some pl,
        roomCode := some c, roomId := some r }
  | .createRoom s c => { type := some 5, targetId := "", senderId := s, roomCode := some c }
  | .joinRoom s c => { type := some 6, targetId := "", senderId := s, roomCode := some c }
  | .leaveRoom s => { type := some 7, targetId := "", senderId := s }
  | .error t m => { type := some 8, targetId := t, senderId := "", errorMessage := some m }
  | .joinOrCreate s r => { type := some 9, targetId := "", senderId := s, roomId := some r }

/-- Decoding: `SignalingMessage.fromJson` after `JSON.parse` — the null check
on `type`, the switch over the type enum, and each subclass's `fromContent`
required-field checks, in source order. -/
def fromJsonContent (c : SignalingContent) : Except String SignalingMessage :=
  match c.type with
  | none => Except.error "Message type is required"
  | some 0 =>
      match c.offer with
      | none => Except.error "Offer is required."
      | some p => Except.ok (SignalingMessage.offer c.targetId c.senderId p)
  | some 1 =>
      match c.answer with
      | none => Except.error "Answer is required."
      | some p => Except.ok (SignalingMessage.answer c.targetId c.senderId p)
  | some 2 =>
      match c.iceCandidate with
      | none => Except.error "Candidate is required."
      | some p => Except.ok (SignalingMessage.iceCandidate c.targetId c.senderId p)
  | some 3 =>
      match c.clientId with
      | none => Except.error "Id is required."
      | some i => Except.ok (SignalingMessage.clientId c.targetId c.senderId i)
  | some 4 =>
      match c.peerList with
      | none => Except.error "peerList is required."
      | some pl =>
          match c.roomCode with
          | none => Except.error "roomCode is required."
          | some rc =>
              match c.roomId with
              | none => Except.error "roomId is required."
              | some ri =>
                  Except.ok (SignalingMessage.peerList c.targetId c.senderId pl rc ri)
  | some 5 =>
      match c.roomCode with
      | none => Except.error "roomCode is required."
      | some rc => Except.ok (SignalingMessage.createRoom c.senderId rc)
  | some 6 =>
      match c.roomCode with
      | none => Except.error "roomCode is required."
      | some rc => Except.ok (SignalingMessage.joinRoom c.senderId rc)
  | some 7 => Except.ok (SignalingMessage.leaveRoom c.senderId)
  | some 8 =>
      match c.errorMessage with
      | none => Except.error "errorMessage is required."
      | some m => Except.ok (SignalingMessage.error c.targetId m)
  | some 9 =>
      match c.roomId with
      | none => Except.error "roomId is required."
      | some r => Except.ok (SignalingMessage.joinOrCreate c.senderId r)
  | some _ => Except.error "Invalid message type."

/-! ## Server state and operations (signaling server source) -/

def MaxConnectionsPerIp : Nat := 10

def MaxMessagesPerSeconds : Nat := 20

def UNKNOWN_ORIGIN : Nat := 4000

def INVALID_MESSAGE : Nat := 4002

def TOO_MANY_CONNECTIONS : Nat := 4029

def RATE_LIMIT_EXCEEDED : Nat := 4030

/-- The per-client record (`ClientInfo`); the socket handle is represented by
the client-id key under which the record is stored. -/
structure ClientInfo where
  roomId : Option String
deriving DecidableEq

/-- The server's global mutable state, plus an `outbox` of performed
`socket.send` calls (recipient socket, message) and a `closes` list of
performed `socket.close` calls (socket, close code). -/
structure ServerState where
  connectionCounts : List (String × Nat)
  clients : List (String × ClientInfo)
  rooms : List (String × List String)
  roomCodeToId : List (String × String)
  roomIdToCode : List (String × String)
  outbox : List (String × SignalingMessage)
  closes : List (String × Nat)
deriving DecidableEq

/-- State at server start: every map empty. -/
def initialState : ServerState := ⟨[], [], [], [], [], [], []⟩

/-- Mirror of `SignalingError.roomNotFound`. -/
def roomNotFound (roomCode targetId : String) : SignalingMessage :=
  SignalingMessage.error targetId ("Room " ++ roomCode ++ " does not exist.")

/-- Mirror of `SignalingError.roomAlreadyExists`. -/
def roomAlreadyExists (roomCode targetId : String) : SignalingMessage :=
  SignalingMessage.error targetId ("Room " ++ roomCode ++ " already exists.")

/-- Mirror of `broadcast`: looks the room up, then sends the message to each
member whose client record exists, skipping (with a warning) members missing
from the registry; a missing room is logged and dropped. -/
def broadcast (message : SignalingMessage) (roomId : String) (s : ServerState) :
    ServerState :=
  match mget s.rooms roomId with
  | none => s
  | some peers =>
      let sent := (peers.filter (fun p => (mget s.clients p).isSome)).map
        (fun p => (p, message))
      { s with outbox := s.outbox ++ sent }

/-- Mirror of `broadcastPeerList`: fetches the member list and the room code,
logs and drops when either is missing, otherwise broadcasts a
`SignalingPeerList('', '', peers, code, roomId)`. -/
def broadcastPeerList (roomId : String) (s : ServerState) : ServerState :=
  match mget s.rooms roomId, mget s.roomIdToCode roomId with
  | some peers, some code =>
      broadcast (SignalingMessage.peerList "" "" peers code roomId) roomId s
  | _, _ => s

/-- Mirror of `forwardMessage`: direct relay to `message.targetId`; a missing
target is logged and dropped. -/
def forwardMessage (message : SignalingMessage) (s : ServerState) : ServerState :=
  match mget s.clients message.targetId with
  | none => s
  | some _ => { s with outbox := s.outbox ++ [(message.targetId, message)] }

/-- Mirror of `addRoom`: seeds the member list and registers both directions
of the code↔id mapping. -/
def addRoom (id code : String) (peers : List String) (s : ServerState) : ServerState :=
  { s with
    rooms := mset s.rooms id peers,
    roomCodeToId := mset s.roomCodeToId code id,
    roomIdToCode := mset s.roomIdToCode id code }

/-- Mirror of `createRoom`: an already-mapped code sends a targeted
RoomAlreadyExists error back over the requesting socket `sock` and returns;
otherwise the room is added under the fresh id `freshId`
(`crypto.randomUUID()`), the founder's `roomId` is set, and the peer list is
broadcast. -/
def createRoom (senderId roomCode freshId sock : String) (s : ServerState) :
    ServerState :=
  if mhas s.roomCodeToId roomCode then
    { s with outbox := s.outbox ++ [(sock, roomAlreadyExists roomCode senderId)] }
  else
    let s1 := addRoom freshId roomCode [senderId] s
    let s2 := { s1 with clients := mset s1.clients senderId ⟨some freshId⟩ }
    broadcastPeerList freshId s2

/-- Mirror of `joinRoomById`.  The source reads `rooms.get(roomId)!` and calls
`.push` on it: when the room is missing this throws a TypeError, modelled as
`none`. -/
def joinRoomById (roomId clientId : String) (s : ServerState) : Option ServerState :=
  match mget s.rooms roomId with
  | none => none
  | some peers =>
      let s1 := { s with
        rooms := mset s.rooms roomId (peers ++ [clientId]),
        clients := mset s.clients clientId ⟨some roomId⟩ }
      some (broadcastPeerList roomId s1)

/-- Mirror of `joinRoom`: an unknown code sends a targeted RoomNotFound error
back over the requesting socket and changes nothing else; a known code
delegates to `joinRoomById`. -/
def joinRoom (senderId roomCode sock : String) (s : ServerState) :
    Option ServerState :=
  match mget s.roomCodeToId roomCode with
  | none =>
      some { s with outbox := s.outbox ++ [(sock, roomNotFound roomCode senderId)] }
  | some id => joinRoomById id senderId s

/-- Mirror of `joinOrCreateRoom`: if the client-supplied room id is unknown, a
room with a freshly generated code (`generateRoomCode()`, modelled by the
parameter `genCode`) and empty membership is added first; then the ordinary
join path runs. -/
def joinOrCreateRoom (senderId roomId genCode : String) (s : ServerState) :
    Option ServerState :=
  let s1 := if mhas s.rooms roomId then s else addRoom roomId genCode [] s
  joinRoomById roomId senderId s1

/-- Mirror of `room.splice(room.indexOf(x), 1)`: removes the first occurrence
of `x` when present; when `indexOf` returns -1, `splice(-1, 1)` removes the
last element instead (and nothing on an empty array). -/
def jsSpliceRemove (room : List String) (x : String) : List String :=
  if x ∈ room then room.erase x else room.dropLast

/-- Mirror of `leaveRoom`: reads the sender's recorded `roomId` (the fetched
`ClientInfo` is passed by the dispatcher), returns when it is null or when no
room is stored under it; otherwise splices the sender out, deletes the room
when the member list became empty, and broadcasts the peer list otherwise.
Neither the sender's `roomId` field nor the code↔id maps are touched. -/
def leaveRoom (senderId : String) (client : ClientInfo) (s : ServerState) :
    ServerState :=
  match client.roomId with
  | none => s
  | some rid =>
      match mget s.rooms rid with
      | none => s
      | some room =>
          let room1 := jsSpliceRemove room senderId
          if room1.length = 0 then
            { s with rooms := mdelete s.rooms rid }
          else
            broadcastPeerList rid { s with rooms := mset s.rooms rid room1 }

/-- Mirror of `removeClient` (the close handler's cleanup): returns at once on
an absent address; otherwise decrements/removes the address count, deletes the
client record, splices the id out of every room holding it, and deletes every
room whose member list is empty afterwards.  No peer-list broadcast is sent
and the code↔id maps are not touched. -/
def removeClient (clientId : String) (ip : Option String) (s : ServerState) :
    ServerState :=
  match ip with
  | none => s
  | some ip1 =>
      let c := (mget s.connectionCounts ip1).getD 0
      { s with
        connectionCounts :=
          if c ≤ 1 then mdelete s.connectionCounts ip1
          else mset s.connectionCounts ip1 (c - 1),
        clients := mdelete s.clients clientId,
        rooms :=
          ((s.rooms.map (fun e => (e.1, e.2.erase clientId))).filter
            (fun e => decide (e.2.length ≠ 0))) }

/-- Mirror of `checkConnectionCount`: rejects (closing with UNKNOWN_ORIGIN)
when the address is absent; rejects with TOO_MANY_CONNECTIONS when the
current count already exceeds `MaxConnectionsPerIp`; otherwise increments the
count and admits. -/
def checkConnectionCount (sock : String) (ip : Option String) (s : ServerState) :
    Bool × ServerState :=
  match ip with
  | none => (false, { s with closes := s.closes ++ [(sock, UNKNOWN_ORIGIN)] })
  | some ip1 =>
      let count := (mget s.connectionCounts ip1).getD 0
      if count > MaxConnectionsPerIp then
        (false, { s with closes := s.closes ++ [(sock, TOO_MANY_CONNECTIONS)] })
      else
        (true, { s with connectionCounts := mset s.connectionCounts ip1 (count + 1) })

/-- Mirror of the connection handler up to its event registrations: admission
check, registry insertion under the fresh id `freshId` (`crypto.randomUUID()`,
also standing for the socket), and the initial ClientId send. -/
def connectClient (ip : Option String) (freshId : String) (s : ServerState) :
    ServerState :=
  match checkConnectionCount freshId ip s with
  | (false, s1) => s1
  | (true, s1) =>
      { s1 with
        clients := mset s1.clients freshId ⟨none⟩,
        outbox := s1.outbox ++
          [(freshId, SignalingMessage.clientId freshId "" freshId)] }

/-- Mirror of `handleMessage`: drops the message silently when the sender id
is not registered, then routes by message type; inbound server-authored types
(ClientId, PeerList, Error) fall to the default case, which closes the socket
with INVALID_MESSAGE.  `freshId` and `genCode` stand for the random values a
CreateRoom / JoinOrCreate dispatch would draw; `none` models the TypeError
thrown when `joinRoomById` dereferences a missing room. -/
def handleMessage (m : SignalingMessage) (sock freshId genCode : String)
    (s : ServerState) : Option ServerState :=
  match mget s.clients m.senderId with
  | none => some s
  | some sender =>
      match m with
      | .createRoom senderId roomCode => some (createRoom senderId roomCode freshId sock s)
      | .joinRoom senderId roomCode => joinRoom senderId roomCode sock s
      | .joinOrCreate senderId roomId => joinOrCreateRoom senderId roomId genCode s
      | .leaveRoom senderId => some (leaveRoom senderId sender s)
      | .offer _ _ _ => some (forwardMessage m s)
      | .answer _ _ _ => some (forwardMessage m s)
      | .iceCandidate _ _ _ => some (forwardMessage m s)
      | _ => some { s with closes := s.closes ++ [(sock, INVALID_MESSAGE)] }

/-! ## Per-connection rate limiter (message handler preamble) -/

/-- The per-connection rate counter: `messageCount` and `resetAt`. -/
structure RateState where
  count : Nat
  resetAt : Nat
deriving DecidableEq

/-- State installed at connection time: `messageCount = 0`,
`resetAt = Date.now() + 1000`. -/
def rateInit (now : Nat) : RateState := ⟨0, now + 1000⟩

/-- Runs the rate-gate preamble of the message handler over a list of frame
arrival times: on each frame the counter is reset (count to 0, `resetAt` to
`now` — not `now + 1000`) when the clock has passed `resetAt`; the connection
is closed with RATE_LIMIT_EXCEEDED when the counter already exceeds
`MaxMessagesPerSeconds`; otherwise the counter is incremented and the frame
is processed.  Returns how many frames passed the gate and the close code if
the gate closed the connection. -/
def rateRun : RateState → List Nat → Nat × Option Nat
  | _, [] => (0, none)
  | rs, now :: rest =>
      let rs1 := if now > rs.resetAt then ⟨0, now⟩ else rs
      if rs1.count > MaxMessagesPerSeconds then (0, some RATE_LIMIT_EXCEEDED)
      else
        let r := rateRun ⟨rs1.count + 1, rs1.resetAt⟩ rest
        (r.1 + 1, r.2)

/-! ## Operational step relation

One step is one event the server reacts to: a connection attempt, one
dispatched inbound message, or a socket close.  The random draws of
`crypto.randomUUID()` are parameters constrained to be fresh where the server
relies on UUID uniqueness; `generateRoomCode()` performs no uniqueness check
in the source, so `genCode` is unconstrained. -/

inductive Step : ServerState → ServerState → Prop where
  | connect (ip : Option String) (freshId : String) (s : ServerState) :
      freshId ∉ keys s.clients → Step s (connectClient ip freshId s)
  | message (m : SignalingMessage) (sock freshId genCode : String)
      (s s' : ServerState) :
      freshId ∉ keys s.rooms → freshId ∉ keys s.roomIdToCode →
      handleMessage m sock freshId genCode s = some s' → Step s s'
  | close (clientId : String) (ip : Option String) (s : ServerState) :
      Step s (removeClient clientId ip s)

/-- States reachable from server start by any event sequence. -/
inductive Reachable : ServerState → Prop where
  | init : Reachable initialState
  | step {s s' : ServerState} : Reachable s → Step s s' → Reachable s'

/-- Discipline under which a room-entering message (CreateRoom, JoinRoom,
JoinOrCreate) is only sent by a client that is not currently listed in any
room's member list; all other messages are unrestricted. -/
def sendersRoomFree (m : SignalingMessage) (s : ServerState) : Bool :=
  match m with
  | .createRoom sid _ => s.rooms.all (fun e => decide (sid ∉ e.2))
  | .joinRoom sid _ => s.rooms.all (fun e => decide (sid ∉ e.2))
  | .joinOrCreate sid _ => s.rooms.all (fun e => decide (sid ∉ e.2))
  | _ => true

/-- Step relation restricted to the `sendersRoomFree` discipline. -/
inductive GStep : ServerState → ServerState → Prop where
  | connect (ip : Option String) (freshId : String) (s : ServerState) :
      freshId ∉ keys s.clients → GStep s (connectClient ip freshId s)
  | message (m : SignalingMessage) (sock freshId genCode : String)
      (s s' : ServerState) :
      freshId ∉ keys s.rooms → freshId ∉ keys s.roomIdToCode →
      sendersRoomFree m s = true →
      handleMessage m sock freshId genCode s = some s' → GStep s s'
  | close (clientId : String) (ip : Option String) (s : ServerState) :
      GStep s (removeClient clientId ip s)

/-- States reachable under the `sendersRoomFree` discipline. -/
inductive GReachable : ServerState → Prop where
  | init : GReachable initialState
  | step {s s' : ServerState} : GReachable s → GStep s s' → GReachable s'

/-! ## Concrete example run

Client A connects from 1.1.1.1, creates room code AB12 (fresh room id r1),
client B connects from 2.2.2.2 and joins AB12 — then joins it a second time. -/

def exS1 : ServerState := connectClient (some "1.1.1.1") "A" initialState

def exS2 : ServerState := createRoom "A" "AB12" "r1" "A" exS1

def exS3 : ServerState := connectClient (some "2.2.2.2") "B" exS2

def exS4 : ServerState := (joinRoom "B" "AB12" "B" exS3).getD initialState

def exS5 : ServerState := (joinRoom "B" "AB12" "B" exS4).getD initialState

/-- State after the only member of room r1 (code AB12) leaves: the room is
deleted but both code↔id map entries survive. -/
def bugS3 : ServerState := leaveRoom "A" ⟨some "r1"⟩ exS2

/-- Message types whose dispatch can append the sender to a room. -/
def isRoomEntry (m : SignalingMessage) : Bool :=
  match m with
  | .createRoom _ _ => true
  | .joinRoom _ _ => true
  | .joinOrCreate _ _ => true
  | _ => false

/-- Total occurrences of a connection id across an association list of rooms. -/
def occsL (rooms : List (String × List String)) (x : String) : Nat :=
  (rooms.map (fun e => e.2.count x)).sum

/-- Total occurrences of a connection id across all rooms of a state. -/
def memberOccs (s : ServerState) (x : String) : Nat := occsL s.rooms x

/-- A state with exactly MaxConnectionsPerIp = 10 connections open from "ip". -/
def c5s10 : ServerState := { initialState with connectionCounts := [("ip", 10)] }

/-- A state with 11 connections open from "ip". -/
def c5s11 : ServerState := { initialState with connectionCounts := [("ip", 11)] }

/-- A state with one registered client and one room code mapping, for the
application-error witnesses. -/
def c6s : ServerState :=
  { initialState with
    clients := [("A", ⟨none⟩)],
    roomCodeToId := [("XY", "r9")] }

/-- A state where client B's recorded room r1 exists but does not list B. -/
def c9s : ServerState :=
  { initialState with
    clients := [("B", ⟨some "r1"⟩)],
    rooms := [("r1", ["A", "C"])],
    roomCodeToId := [("AB12", "r1")],
    roomIdToCode := [("r1", "AB12")] }

/-- A two-member room r1 = [A, B] with both members registered. -/
def c1ws : ServerState :=
  { initialState with
    clients := [("A", ⟨some "r1"⟩), ("B", ⟨some "r1"⟩)],
    rooms := [("r1", ["A", "B"])],
    roomCodeToId := [("AB12", "r1")],
    roomIdToCode := [("r1", "AB12")] }

/-! ## Association-list lemmas -/
theorem mget_mset_self {α : Type} (l : List (String × α)) (k : String) (v : α) :
    mget (mset l k v) k = some v := by
  induction l with
  | nil => simp [mget, mset]
  | cons e rest ih =>
      obtain ⟨k1, v1⟩ := e
      by_cases h : k1 = k
      · simp [mget, mset, h]
      · simp [mget, mset, h, ih]

theorem mget_mem {α : Type} {l : List (String × α)} {k : String} {v : α}
    (h : mget l k = some v) : (k, v) ∈ l := by
  induction l with
  | nil => simp [mget] at h
  | cons e rest ih =>
      obtain ⟨k1, v1⟩ := e
      by_cases hk : k1 = k
      · simp [mget, hk] at h
        simp [hk, h]
      · simp [mget, hk] at h
        exact List.mem_cons_of_mem _ (ih h)

theorem mem_mset {α : Type} {l : List (String × α)} {k : String} {v : α} {e : String × α}
    (h : e ∈ mset l k v) : e ∈ l ∨ e = (k, v) := by
  induction l with
  | nil => simp [mset] at h; simp [h]
  | cons e1 rest ih =>
      obtain ⟨k1, v1⟩ := e1
      by_cases hk : k1 = k
      · simp [mset, hk] at h
        rcases h with h | h
        · right; simp [h]
        · left; exact List.mem_cons_of_mem _ h
      · simp [mset, hk] at h
        rcases h with h | h
        · left; simp [h]
        · rcases ih h with h1 | h1
          · left; exact List.mem_cons_of_mem _ h1
          · right; exact h1

theorem mget_mset_ne {α : Type} (l : List (String × α)) {k p : String} (v : α)
    (h : p ≠ k) : mget (mset l k v) p = mget l p := by
  induction l with
  | nil => simp [mget, mset, Ne.symm h]
  | cons e rest ih =>
      obtain ⟨k1, v1⟩ := e
      by_cases hk : k1 = k
      · subst hk
        simp [mget, mset, Ne.symm h]
      · simp only [mset, if_neg hk]
        by_cases hp : k1 = p
        · simp [mget, hp]
        · simp [mget, hp, ih]

theorem mset_mset {α : Type} (l : List (String × α)) (k : String) (v v1 : α) :
    mset (mset l k v) k v1 = mset l k v1 := by
  induction l with
  | nil => simp [mset]
  | cons e rest ih =>
      obtain ⟨k1, v1'⟩ := e
      by_cases hk : k1 = k
      · simp [mset, hk]
      · simp [mset, hk, ih]

theorem keys_mset_of_mget {α : Type} {l : List (String × α)} {k : String} {v : α}
    (h : mget l k = some v) (v1 : α) : keys (mset l k v1) = keys l := by
  induction l with
  | nil => simp [mget] at h
  | cons e rest ih =>
      obtain ⟨k1, w⟩ := e
      by_cases hk : k1 = k
      · simp [mset, hk, keys]
      · simp [mget, hk] at h
        simp [mset, hk, keys] at ih ⊢
        exact ih h

theorem mem_mdelete {α : Type} {l : List (String × α)} {k : String} {e : String × α}
    (h : e ∈ mdelete l k) : e ∈ l := by
  induction l with
  | nil => simp [mdelete] at h
  | cons e1 rest ih =>
      obtain ⟨k1, v1⟩ := e1
      by_cases hk : k1 = k
      · simp [mdelete, hk] at h
        exact List.mem_cons_of_mem _ h
      · simp [mdelete, hk] at h
        rcases h with h | h
        · simp [h]
        · exact List.mem_cons_of_mem _ (ih h)

theorem mhas_false_not_mem_keys {α : Type} {l : List (String × α)} {k : String}
    (h : mhas l k = false) : k ∉ keys l := by
  induction l with
  | nil => simp [keys]
  | cons e rest ih =>
      obtain ⟨k1, v1⟩ := e
      by_cases hk : k1 = k
      · simp [mhas, mget, hk] at h
      · simp [mhas, mget, hk] at h
        simp [keys, hk]
        constructor
        · exact fun hh => hk hh.symm
        · simpa [keys] using ih (by simpa [mhas] using h)

theorem mhas_true_exists {α : Type} {l : List (String × α)} {k : String}
    (h : mhas l k = true) : ∃ v, mget l k = some v := by
  simpa [mhas, Option.isSome_iff_exists] using h

theorem mget_isSome_mset {α : Type} {l : List (String × α)} {p : String}
    (h : (mget l p).isSome = true) (k : String) (v : α) :
    (mget (mset l k v) p).isSome = true := by
  by_cases hp : p = k
  · subst hp; simp [mget_mset_self]
  · rw [mget_mset_ne l v hp]; exact h

/-! ## Structural lemmas about the operations -/

theorem broadcast_only_outbox (m : SignalingMessage) (rid : String) (s : ServerState) :
    ∃ t, broadcast m rid s = { s with outbox := s.outbox ++ t } := by
  rw [broadcast]
  cases h : mget s.rooms rid with
  | none => exact ⟨[], by simp⟩
  | some peers => exact ⟨_, rfl⟩

theorem broadcastPeerList_only_outbox (rid : String) (s : ServerState) :
    ∃ t, broadcastPeerList rid s = { s with outbox := s.outbox ++ t } := by
  rw [broadcastPeerList]
  cases h1 : mget s.rooms rid with
  | none => exact ⟨[], by simp⟩
  | some peers =>
      cases h2 : mget s.roomIdToCode rid with
      | none => exact ⟨[], by simp⟩
      | some code => exact broadcast_only_outbox _ _ _

theorem broadcastPeerList_rooms (rid : String) (s : ServerState) :
    (broadcastPeerList rid s).rooms = s.rooms := by
  obtain ⟨t, ht⟩ := broadcastPeerList_only_outbox rid s
  rw [ht]

theorem broadcastPeerList_clients (rid : String) (s : ServerState) :
    (broadcastPeerList rid s).clients = s.clients := by
  obtain ⟨t, ht⟩ := broadcastPeerList_only_outbox rid s
  rw [ht]

theorem broadcastPeerList_roomIdToCode (rid : String) (s : ServerState) :
    (broadcastPeerList rid s).roomIdToCode = s.roomIdToCode := by
  obtain ⟨t, ht⟩ := broadcastPeerList_only_outbox rid s
  rw [ht]

theorem connectClient_rooms (ip : Option String) (freshId : String) (s : ServerState) :
    (connectClient ip freshId s).rooms = s.rooms := by
  cases ip with
  | none => rfl
  | some ip1 =>
      rw [connectClient, checkConnectionCount]
      by_cases h : (mget s.connectionCounts ip1).getD 0 > MaxConnectionsPerIp
      · simp [h]
      · simp [h]

theorem forwardMessage_rooms (m : SignalingMessage) (s : ServerState) :
    (forwardMessage m s).rooms = s.rooms := by
  rw [forwardMessage]
  cases h : mget s.clients m.targetId <;> rfl

theorem jsSpliceRemove_sublist (room : List String) (x : String) :
    (jsSpliceRemove room x).Sublist room := by
  rw [jsSpliceRemove]
  by_cases h : x ∈ room
  · simp [h, List.erase_sublist]
  · simp [h, List.dropLast_sublist]

/-! ## Occurrence-counting lemmas -/

theorem occsL_cons (k : String) (v : List String) (l : List (String × List String))
    (x : String) : occsL ((k, v) :: l) x = v.count x + occsL l x := by
  simp [occsL]

theorem count_le_occsL {l : List (String × List String)} {k : String}
    {v : List String} (x : String) (h : (k, v) ∈ l) : v.count x ≤ occsL l x := by
  induction l with
  | nil => simp at h
  | cons e rest ih =>
      obtain ⟨k1, v1⟩ := e
      rw [occsL_cons]
      rcases List.mem_cons.mp h with h1 | h1
      · obtain ⟨hk, hv⟩ := Prod.mk.injEq .. ▸ h1
        subst hv
        exact Nat.le_add_right _ _
      · exact le_trans (ih h1) (Nat.le_add_left _ _)

theorem occsL_eq_zero {l : List (String × List String)} {x : String}
    (h : ∀ e ∈ l, x ∉ e.2) : occsL l x = 0 := by
  induction l with
  | nil => rfl
  | cons e rest ih =>
      obtain ⟨k1, v1⟩ := e
      rw [occsL_cons]
      rw [List.count_eq_zero.mpr (h (k1, v1) (by simp)),
        ih (fun e1 he1 => h e1 (by simp [he1]))]

theorem occsL_mset_absent {l : List (String × List String)} {k : String}
    (hk : k ∉ keys l) (v : List String) (x : String) :
    occsL (mset l k v) x = occsL l x + v.count x := by
  induction l with
  | nil => simp [mset, occsL]
  | cons e rest ih =>
      obtain ⟨k1, v1⟩ := e
      have hk1 : ¬ k1 = k := by
        intro hh
        exact hk (by simp [keys, hh])
      have hk2 : k ∉ keys rest := fun hh => hk (by simp [keys] at hh ⊢; tauto)
      rw [mset]
      simp only [if_neg hk1]
      rw [occsL_cons, occsL_cons, ih hk2]
      omega

theorem occsL_mset_present {l : List (String × List String)} {k : String}
    {v : List String} (h : mget l k = some v) (v1 : List String) (x : String) :
    occsL (mset l k v1) x + v.count x = occsL l x + v1.count x := by
  induction l with
  | nil => simp [mget] at h
  | cons e rest ih =>
      obtain ⟨k1, w⟩ := e
      by_cases hk : k1 = k
      · simp [mget, hk] at h
        subst h
        rw [mset]
        simp only [if_pos hk]
        rw [occsL_cons, occsL_cons]
        omega
      · simp [mget, hk] at h
        rw [mset]
        simp only [if_neg hk]
        rw [occsL_cons, occsL_cons]
        have := ih h
        omega

theorem occsL_mdelete_le (l : List (String × List String)) (k x : String) :
    occsL (mdelete l k) x ≤ occsL l x := by
  induction l with
  | nil => simp [mdelete]
  | cons e rest ih =>
      obtain ⟨k1, v1⟩ := e
      by_cases hk : k1 = k
      · rw [mdelete]
        simp only [if_pos hk]
        rw [occsL_cons]
        omega
      · rw [mdelete]
        simp only [if_neg hk]
        rw [occsL_cons, occsL_cons]
        omega

theorem occsL_filter_le (p : String × List String → Bool)
    (l : List (String × List String)) (x : String) :
    occsL (l.filter p) x ≤ occsL l x := by
  induction l with
  | nil => simp [occsL]
  | cons e rest ih =>
      obtain ⟨k1, v1⟩ := e
      rw [List.filter_cons, occsL_cons]
      by_cases hp : p (k1, v1) = true
      · simp only [if_pos hp]
        rw [occsL_cons]
        omega
      · simp only [if_neg hp]
        exact le_trans ih (Nat.le_add_left _ _)

theorem occsL_map_erase_le (l : List (String × List String)) (c x : String) :
    occsL (l.map (fun e => (e.1, e.2.erase c))) x ≤ occsL l x := by
  induction l with
  | nil => simp [occsL]
  | cons e rest ih =>
      obtain ⟨k1, v1⟩ := e
      have hcnt : (v1.erase c).count x ≤ v1.count x :=
        (List.erase_sublist c v1).count_le x
      rw [List.map_cons]
      show occsL ((k1, v1.erase c) :: _) x ≤ _
      rw [occsL_cons, occsL_cons]
      omega

theorem two_mem_occsL {l : List (String × List String)} {e1 e2 : String × List String}
    (h1 : e1 ∈ l) (h2 : e2 ∈ l) (hne : e1 ≠ e2) (x : String) :
    e1.2.count x + e2.2.count x ≤ occsL l x := by
  induction l with
  | nil => simp at h1
  | cons e rest ih =>
      obtain ⟨k1, v1⟩ := e
      rw [occsL_cons]
      rcases List.mem_cons.mp h1 with ha | ha
      · have h2r : e2 ∈ rest := by
          rcases List.mem_cons.mp h2 with hb | hb
          · exact absurd (ha.trans hb.symm) hne
          · exact hb
        have hc2 : e2.2.count x ≤ occsL rest x :=
          count_le_occsL (k := e2.1) (v := e2.2) x (by simpa using h2r)
        have hc1 : e1.2.count x = v1.count x := by rw [ha]
        omega
      · rcases List.mem_cons.mp h2 with hb | hb
        · have hc1 : e1.2.count x ≤ occsL rest x :=
            count_le_occsL (k := e1.1) (v := e1.2) x (by simpa using ha)
          have hc2 : e2.2.count x = v1.count x := by rw [hb]
          omega
        · have := ih ha hb
          omega

/-! ## Reachability of the example run -/

theorem reachable_exS1 : Reachable exS1 :=
  Reachable.step Reachable.init (Step.connect _ _ _ (by decide))

theorem reachable_exS2 : Reachable exS2 :=
  Reachable.step reachable_exS1
    (Step.message (SignalingMessage.createRoom "A" "AB12") "A" "r1" "g" exS1 exS2
      (by decide) (by decide) (by decide))

theorem reachable_exS3 : Reachable exS3 :=
  Reachable.step reachable_exS2 (Step.connect _ _ _ (by decide))

theorem reachable_exS4 : Reachable exS4 :=
  Reachable.step reachable_exS3
    (Step.message (SignalingMessage.joinRoom "B" "AB12") "B" "u1" "g" exS3 exS4
      (by decide) (by decide) (by decide))

theorem reachable_exS5 : Reachable exS5 :=
  Reachable.step reachable_exS4
    (Step.message (SignalingMessage.joinRoom "B" "AB12") "B" "u2" "g" exS4 exS5
      (by decide) (by decide) (by decide))

theorem greachable_exS4 : GReachable exS4 :=
  GReachable.step
    (GReachable.step
      (GReachable.step
        (GReachable.step GReachable.init (GStep.connect (some "1.1.1.1") "A" _ (by decide)))
        (GStep.message (SignalingMessage.createRoom "A" "AB12") "A" "r1" "g" exS1 exS2
          (by decide) (by decide) (by decide) (by decide)))
      (GStep.connect (some "2.2.2.2") "B" _ (by decide)))
    (GStep.message (SignalingMessage.joinRoom "B" "AB12") "B" "u1" "g" exS3 exS4
      (by decide) (by decide) (by decide) (by decide))

theorem handleMessage_rooms (m : SignalingMessage) (sock freshId genCode : String)
    (s s1 : ServerState) (hf : freshId ∉ keys s.rooms)
    (h : handleMessage m sock freshId genCode s = some s1) :
    s1.rooms = s.rooms ∨
    (isRoomEntry m = true ∧ ∃ k, k ∉ keys s.rooms ∧
      s1.rooms = mset s.rooms k [m.senderId]) ∨
    (isRoomEntry m = true ∧ ∃ k peers, mget s.rooms k = some peers ∧
      s1.rooms = mset s.rooms k (peers ++ [m.senderId])) ∨
    (∃ k, s1.rooms = mdelete s.rooms k) ∨
    (∃ k v v1, mget s.rooms k = some v ∧ v1.Sublist v ∧ v1 ≠ [] ∧
      s1.rooms = mset s.rooms k v1) := by
  cases m with
  | createRoom sid code =>
      simp only [handleMessage, SignalingMessage.senderId] at h
      split at h
      · left
        injection h with h
        rw [← h]
      · injection h with h
        subst h
        by_cases hx : mhas s.roomCodeToId code
        · left
          simp [createRoom, hx]
        · right; left
          refine ⟨rfl, freshId, hf, ?_⟩
          simp [createRoom, hx, broadcastPeerList_rooms, addRoom,
            SignalingMessage.senderId]
  | joinRoom sid code =>
      simp only [handleMessage, SignalingMessage.senderId] at h
      split at h
      · left
        injection h with h
        rw [← h]
      · rw [joinRoom] at h
        split at h
        · left
          injection h with h
          rw [← h]
        · rename_i rid hrid
          rw [joinRoomById] at h
          split at h
          · exact absurd h (by simp)
          · rename_i peers hpeers
            injection h with h
            subst h
            right; right; left
            refine ⟨rfl, rid, peers, hpeers, ?_⟩
            rw [broadcastPeerList_rooms]
            rfl
  | joinOrCreate sid rid =>
      simp only [handleMessage, SignalingMessage.senderId] at h
      split at h
      · left
        injection h with h
        rw [← h]
      · rw [joinOrCreateRoom] at h
        by_cases hx : mhas s.rooms rid
        · rw [if_pos hx] at h
          rw [joinRoomById] at h
          split at h
          · exact absurd h (by simp)
          · rename_i peers hpeers
            injection h with h
            subst h
            right; right; left
            refine ⟨rfl, rid, peers, hpeers, ?_⟩
            rw [broadcastPeerList_rooms]
            rfl
        · rw [if_neg hx] at h
          rw [joinRoomById] at h
          rw [show (addRoom rid genCode [] s).rooms = mset s.rooms rid [] from rfl,
            mget_mset_self] at h
          injection h with h
          subst h
          right; left
          refine ⟨rfl, rid, mhas_false_not_mem_keys (by simpa using hx), ?_⟩
          rw [broadcastPeerList_rooms]
          show mset (mset s.rooms rid []) rid ([] ++ [sid]) = mset s.rooms rid [sid]
          rw [mset_mset]
          rfl
  | leaveRoom sid =>
      simp only [handleMessage, SignalingMessage.senderId] at h
      split at h
      · left
        injection h with h
        rw [← h]
      · rename_i sender hs
        injection h with h
        subst h
        cases hri : sender.roomId with
        | none =>
            left
            simp [leaveRoom, hri]
        | some rid =>
            cases hroom : mget s.rooms rid with
            | none =>
                left
                simp [leaveRoom, hri, hroom]
            | some room =>
                by_cases hlen : (jsSpliceRemove room sid).length = 0
                · right; right; right; left
                  exact ⟨rid, by simp [leaveRoom, hri, hroom, hlen]⟩
                · right; right; right; right
                  refine ⟨rid, room, jsSpliceRemove room sid, hroom,
                    jsSpliceRemove_sublist room sid, ?_, ?_⟩
                  · intro hh
                    rw [hh] at hlen
                    exact hlen rfl
                  · simp [leaveRoom, hri, hroom, hlen, broadcastPeerList_rooms]
  | offer t sndr p =>
      simp only [handleMessage, SignalingMessage.senderId] at h
      split at h
      · left
        injection h with h
        rw [← h]
      · left
        injection h with h
        rw [← h]
        exact forwardMessage_rooms _ _
  | answer t sndr p =>
      simp only [handleMessage, SignalingMessage.senderId] at h
      split at h
      · left
        injection h with h
        rw [← h]
      · left
        injection h with h
        rw [← h]
        exact forwardMessage_rooms _ _
  | iceCandidate t sndr p =>
      simp only [handleMessage, SignalingMessage.senderId] at h
      split at h
      · left
        injection h with h
        rw [← h]
      · left
        injection h with h
        rw [← h]
        exact forwardMessage_rooms _ _
  | clientId t sndr i =>
      simp only [handleMessage, SignalingMessage.senderId] at h
      split at h
      · left
        injection h with h
        rw [← h]
      · left
        injection h with h
        rw [← h]
  | peerList t sndr pl c r =>
      simp only [handleMessage, SignalingMessage.senderId] at h
      split at h
      · left
        injection h with h
        rw [← h]
      · left
        injection h with h
        rw [← h]
  | error t msg =>
      simp only [handleMessage, SignalingMessage.senderId] at h
      split at h
      · left
        injection h with h
        rw [← h]
      · left
        injection h with h
        rw [← h]

theorem sendersRoomFree_spec {m : SignalingMessage} {s : ServerState}
    (hj : isRoomEntry m = true) (hg : sendersRoomFree m s = true) :
    ∀ e ∈ s.rooms, m.senderId ∉ e.2 := by
  intro e he
  cases m with
  | createRoom sid code =>
      simp only [sendersRoomFree, List.all_eq_true] at hg
      simpa [SignalingMessage.senderId] using hg e he
  | joinRoom sid code =>
      simp only [sendersRoomFree, List.all_eq_true] at hg
      simpa [SignalingMessage.senderId] using hg e he
  | joinOrCreate sid rid =>
      simp only [sendersRoomFree, List.all_eq_true] at hg
      simpa [SignalingMessage.senderId] using hg e he
  | offer t sndr p => simp [isRoomEntry] at hj
  | answer t sndr p => simp [isRoomEntry] at hj
  | iceCandidate t sndr p => simp [isRoomEntry] at hj
  | clientId t sndr i => simp [isRoomEntry] at hj
  | peerList t sndr pl c r => simp [isRoomEntry] at hj
  | leaveRoom sid => simp [isRoomEntry] at hj
  | error t msg => simp [isRoomEntry] at hj

/-- Every room held in a reachable state has a non-empty member list. -/
theorem reachable_rooms_nonempty {s : ServerState} (h : Reachable s) :
    ∀ e ∈ s.rooms, e.2 ≠ [] := by
  induction h with
  | init => simp [initialState]
  | @step st s1 h1 h2 ih =>
      cases h2 with
      | connect ip f hfc =>
          rw [connectClient_rooms]
          exact ih
      | close cid ip =>
          cases ip with
          | none => exact ih
          | some ip1 =>
              intro e he
              simp only [removeClient] at he
              have := List.of_mem_filter he
              intro hh
              rw [hh] at this
              simp at this
      | message m sock f g sA sB hfr hfc hmsg =>
          rcases handleMessage_rooms m sock f g st s1 hfr hmsg with
            h0 | ⟨_, k, hk, heq⟩ | ⟨_, k, peers, hget, heq⟩ | ⟨k, heq⟩ |
            ⟨k, v, v1, hget, hsub, hne, heq⟩
          · rw [h0]
            exact ih
          · rw [heq]
            intro e he
            rcases mem_mset he with he1 | he1
            · exact ih e he1
            · rw [he1]
              simp
          · rw [heq]
            intro e he
            rcases mem_mset he with he1 | he1
            · exact ih e he1
            · rw [he1]
              simp
          · rw [heq]
            intro e he
            exact ih e (mem_mdelete he)
          · rw [heq]
            intro e he
            rcases mem_mset he with he1 | he1
            · exact ih e he1
            · rw [he1]
              exact hne

/-- Under the `sendersRoomFree` discipline, every connection id occurs at most
once across all rooms' member lists of a reachable state. -/
theorem greachable_occs {s : ServerState} (h : GReachable s) :
    ∀ x, occsL s.rooms x ≤ 1 := by
  induction h with
  | init =>
      intro x
      simp [initialState, occsL]
  | @step st s1 h1 h2 ih =>
      cases h2 with
      | connect ip f sA hfc =>
          intro x
          rw [connectClient_rooms]
          exact ih x
      | message m sock f g sA sB hfr hfc hguard hmsg =>
          rcases handleMessage_rooms m sock f g st s1 hfr hmsg with
            h0 | ⟨hj, k, hk, heq⟩ | ⟨hj, k, peers, hget, heq⟩ | ⟨k, heq⟩ |
            ⟨k, v, v1, hget, hsub, hne, heq⟩
          · intro x
            rw [h0]
            exact ih x
          · -- fresh room seeded with the sender
            have hzero : occsL st.rooms m.senderId = 0 :=
              occsL_eq_zero (sendersRoomFree_spec hj hguard)
            intro x
            rw [heq, occsL_mset_absent hk]
            by_cases hx : x = m.senderId
            · subst hx
              rw [hzero]
              simp
            · have : List.count x [m.senderId] = 0 :=
                List.count_eq_zero.mpr (by simp [hx])
              rw [this]
              simpa using ih x
          · -- sender appended to an existing room
            have hzero : occsL st.rooms m.senderId = 0 :=
              occsL_eq_zero (sendersRoomFree_spec hj hguard)
            intro x
            have hkey := occsL_mset_present hget (peers ++ [m.senderId]) x
            rw [heq]
            by_cases hx : x = m.senderId
            · subst hx
              have hpc : peers.count m.senderId = 0 := by
                have := count_le_occsL m.senderId (mget_mem hget)
                omega
              rw [List.count_append] at hkey
              have hone : List.count m.senderId [m.senderId] = 1 := by simp
              rw [hzero, hpc, hone] at hkey
              omega
            · have : List.count x [m.senderId] = 0 :=
                List.count_eq_zero.mpr (by simp [hx])
              rw [List.count_append, this] at hkey
              have := ih x
              omega
          · intro x
            rw [heq]
            exact le_trans (occsL_mdelete_le st.rooms k x) (ih x)
          · intro x
            have hkey := occsL_mset_present hget v1 x
            have hcnt : v1.count x ≤ v.count x := hsub.count_le x
            have := ih x
            rw [heq]
            omega
      | close cid ip sA =>
          cases ip with
          | none =>
              intro x
              exact ih x
          | some ip1 =>
              intro x
              simp only [removeClient]
              exact le_trans
                (occsL_filter_le _ _ x)
                (le_trans (occsL_map_erase_le st.rooms cid x) (ih x))

/-! ## Claim theorems -/

/-- C8: encoding any valid message variant to its wire envelope and then
decoding that envelope yields a message equal to the original in all fields
(type tag, targetId, senderId, and every type-specific field). -/
theorem message_roundtrip (m : SignalingMessage) :
    fromJsonContent (toContent m) = Except.ok m := by
  cases m <;> rfl

/-- C10: the disconnect-cleanup operation invoked with an absent source
address returns immediately and leaves the entire server state unchanged —
the connection stays in the client registry, no room's member list changes,
no room is deleted, and no admission count changes. -/
theorem removeClient_absent_ip_noop (clientId : String) (s : ServerState) :
    removeClient clientId none s = s := rfl

/-- C2 (code-bug evidence): in the reachable state where room r1 (code AB12)
was deleted because its only member left, both directions of the code↔id
mapping are still present, a second createRoom with code AB12 fails with a
RoomAlreadyExists error instead of succeeding, and a join resolving the stale
code crashes in joinRoomById's non-null dereference. -/
theorem stale_room_mappings_after_delete :
    Reachable bugS3 ∧
    mget bugS3.rooms "r1" = none ∧
    mget bugS3.roomCodeToId "AB12" = some "r1" ∧
    mget bugS3.roomIdToCode "r1" = some "AB12" ∧
    createRoom "A" "AB12" "r2" "A" bugS3 =
      { bugS3 with outbox := bugS3.outbox ++ [("A", roomAlreadyExists "AB12" "A")] } ∧
    joinRoomById "r1" "B" bugS3 = none := by
  refine ⟨?_, by decide, by decide, by decide, by decide, by decide⟩
  exact Reachable.step reachable_exS2
    (Step.message (SignalingMessage.leaveRoom "A") "A" "z" "g" exS2 bugS3
      (by decide) (by decide) (by decide))

/-- C7: in every reachable state, every room that exists has a non-empty
member list — the moment a removal would leave a member list empty the room
is deleted within the same operation. -/
theorem rooms_never_empty {s : ServerState} (h : Reachable s) (rid : String)
    (peers : List String) (hr : mget s.rooms rid = some peers) : peers ≠ [] :=
  reachable_rooms_nonempty h (rid, peers) (mget_mem hr)

/-- C7 witness: the reachable state exS2 holds room r1 with the non-empty
member list [A]. -/
theorem rooms_never_empty_witness :
    mget exS2.rooms "r1" = some ["A"] ∧ (["A"] : List String) ≠ [] :=
  ⟨by decide, rooms_never_empty reachable_exS2 "r1" ["A"] (by decide)⟩

/-- C3 counterexample: the claim fails as stated — the state exS5, reached by
create(A, AB12); join(B, AB12); join(B, AB12), holds room r1 with member list
[A, B, B], which contains the duplicate id B. -/
theorem duplicate_membership_counterexample :
    Reachable exS5 ∧ mget exS5.rooms "r1" = some ["A", "B", "B"] ∧
    ¬ (["A", "B", "B"] : List String).Nodup :=
  ⟨reachable_exS5, by decide, by decide⟩

/-- C3 (amended): in every state reachable under the discipline that each
CreateRoom / JoinRoom / JoinOrCreate is issued by a connection not currently
listed in any room, no room's member list contains a duplicate id and no id
appears in two different rooms' member lists at the same time (without that
discipline a repeated join duplicates the sender's id). -/
theorem guarded_membership_unique {s : ServerState} (h : GReachable s) :
    (∀ e ∈ s.rooms, e.2.Nodup) ∧
    (∀ e1 ∈ s.rooms, ∀ e2 ∈ s.rooms, e1 ≠ e2 → ∀ x, x ∈ e1.2 → x ∉ e2.2) := by
  have hocc := greachable_occs h
  constructor
  · intro e he
    rw [List.nodup_iff_count_le_one]
    intro x
    calc e.2.count x ≤ occsL s.rooms x :=
          count_le_occsL x (show (e.1, e.2) ∈ s.rooms by simpa using he)
      _ ≤ 1 := hocc x
  · intro e1 h1 e2 h2 hne x hx1 hx2
    have hc1 : 0 < e1.2.count x := List.count_pos_iff.mpr hx1
    have hc2 : 0 < e2.2.count x := List.count_pos_iff.mpr hx2
    have hsum := two_mem_occsL h1 h2 hne x
    have := hocc x
    omega

/-- C3 witness: in the guarded reachable state exS4 the room r1 has the
duplicate-free member list [A, B]. -/
theorem guarded_membership_unique_witness :
    mget exS4.rooms "r1" = some ["A", "B"] ∧ (["A", "B"] : List String).Nodup :=
  ⟨by decide,
    (guarded_membership_unique greachable_exS4).1 ("r1", ["A", "B"]) (by decide)⟩

/-- C9: when a connection's recorded roomId refers to an existing room whose
non-empty member list does not contain that connection's id (for example a
second LeaveRoom in a row while other members remain), leaveRoom removes the
last element of the member list — splice(indexOf = -1, 1) — rather than
leaving the room unchanged (deleting the room if that empties it). -/
theorem leaveRoom_absent_sender_removes_last (s : ServerState) (sid rid : String)
    (info : ClientInfo) (room : List String)
    (hinfo : mget s.clients sid = some info) (hrid : info.roomId = some rid)
    (hroom : mget s.rooms rid = some room) (hne : room ≠ []) (hmem : sid ∉ room) :
    room.dropLast ≠ room ∧
    (leaveRoom sid info s).rooms =
      (if room.dropLast.length = 0 then mdelete s.rooms rid
       else mset s.rooms rid room.dropLast) := by
  have hsplice : jsSpliceRemove room sid = room.dropLast := by
    rw [jsSpliceRemove, if_neg hmem]
  constructor
  · intro hh
    have hlen := congrArg List.length hh
    rw [List.length_dropLast] at hlen
    have : room.length ≠ 0 := fun h0 => hne (List.length_eq_zero.mp h0)
    omega
  · by_cases hlen : room.dropLast.length = 0
    · have hlen1 : room.length - 1 = 0 := by
        rw [← List.length_dropLast]
        exact hlen
      rw [if_pos hlen]
      simp [leaveRoom, hrid, hroom, hsplice, hlen, hlen1]
    · have hlen1 : ¬ room.length - 1 = 0 := by
        rw [← List.length_dropLast]
        exact hlen
      rw [if_neg hlen]
      simp [leaveRoom, hrid, hroom, hsplice, hlen, hlen1, broadcastPeerList_rooms]

/-- C9 witness: in a state where client B's recorded room r1 = [A, C] does not
list B, B's leave removes the last member C. -/
theorem leaveRoom_absent_sender_removes_last_witness :
    (["A", "C"] : List String).dropLast ≠ ["A", "C"] ∧
    (leaveRoom "B" ⟨some "r1"⟩ c9s).rooms =
      (if (["A", "C"] : List String).dropLast.length = 0 then mdelete c9s.rooms "r1"
       else mset c9s.rooms "r1" (["A", "C"] : List String).dropLast) :=
  leaveRoom_absent_sender_removes_last c9s "B" "r1" ⟨some "r1"⟩ ["A", "C"]
    (by decide) rfl (by decide) (by decide) (by decide)

/-- C6: application errors are atomic and non-fatal — createRoom on a taken
code yields only a targeted RoomAlreadyExists error to the requesting socket,
joinRoom on an unknown code yields only a targeted RoomNotFound error, in
both cases no close is recorded and no registry, room, or mapping state
changes; and a join message never changes which rooms exist. -/
theorem application_errors_atomic (s : ServerState) (sock sid code freshId : String) :
    (mhas s.roomCodeToId code = true →
      createRoom sid code freshId sock s =
        { s with outbox := s.outbox ++ [(sock, roomAlreadyExists code sid)] }) ∧
    (mget s.roomCodeToId code = none →
      joinRoom sid code sock s =
        some { s with outbox := s.outbox ++ [(sock, roomNotFound code sid)] }) ∧
    (∀ s1, joinRoom sid code sock s = some s1 → keys s1.rooms = keys s.rooms) := by
  refine ⟨?_, ?_, ?_⟩
  · intro h
    rw [createRoom, if_pos h]
  · intro h
    simp only [joinRoom, h]
  · intro s1 hj
    rw [joinRoom] at hj
    split at hj
    · injection hj with hj
      rw [← hj]
    · rename_i rid hrid
      rw [joinRoomById] at hj
      split at hj
      · exact absurd hj (by simp)
      · rename_i peers hpeers
        injection hj with hj
        rw [← hj, broadcastPeerList_rooms]
        exact keys_mset_of_mget hpeers _

/-- C6 witness: in the state c6s (client A registered, code XY mapped), a
create with the taken code XY and a join with the unknown code ZZ each
produce exactly the targeted error. -/
theorem application_errors_atomic_witness :
    createRoom "A" "XY" "f" "A" c6s =
      { c6s with outbox := c6s.outbox ++ [("A", roomAlreadyExists "XY" "A")] } ∧
    joinRoom "A" "ZZ" "A" c6s =
      some { c6s with outbox := c6s.outbox ++ [("A", roomNotFound "ZZ" "A")] } :=
  ⟨(application_errors_atomic c6s "A" "A" "XY" "f").1 (by decide),
    (application_errors_atomic c6s "A" "A" "ZZ" "f").2.1 (by decide)⟩

/-- C5 counterexample: with exactly MaxConnectionsPerAddress = 10 connections
already open from an address, a new attempt is admitted (count incremented to
11, nothing closed), contrary to the claimed rejection. -/
theorem admission_at_limit_counterexample :
    (checkConnectionCount "sock" (some "ip") c5s10).1 = true ∧
    mget ((checkConnectionCount "sock" (some "ip") c5s10).2).connectionCounts "ip" =
      some 11 ∧
    ((checkConnectionCount "sock" (some "ip") c5s10).2).closes = c5s10.closes := by
  refine ⟨by decide, by decide, by decide⟩

/-- C5 (amended): the admission check is `count > limit` before increment, so
rejection starts at MaxConnectionsPerIp + 1 = 11 already-open connections —
such an attempt is closed with TOO_MANY_CONNECTIONS and the count is not
incremented; after one of those connections closes, exactly one new admission
from that address succeeds (the next attempt is rejected again). -/
theorem admission_threshold (s : ServerState) (ip sock sock1 sock2 cid : String)
    (h : mget s.connectionCounts ip = some (MaxConnectionsPerIp + 1)) :
    checkConnectionCount sock (some ip) s =
      (false, { s with closes := s.closes ++ [(sock, TOO_MANY_CONNECTIONS)] }) ∧
    mget (removeClient cid (some ip) s).connectionCounts ip =
      some MaxConnectionsPerIp ∧
    (checkConnectionCount sock1 (some ip) (removeClient cid (some ip) s)).1 = true ∧
    mget ((checkConnectionCount sock1 (some ip)
      (removeClient cid (some ip) s)).2).connectionCounts ip =
      some (MaxConnectionsPerIp + 1) ∧
    (checkConnectionCount sock2 (some ip)
      ((checkConnectionCount sock1 (some ip) (removeClient cid (some ip) s)).2)).1 =
      false := by
  have h10 : mget (removeClient cid (some ip) s).connectionCounts ip =
      some MaxConnectionsPerIp := by
    simp [removeClient, h, MaxConnectionsPerIp, mget_mset_self]
  have h11 : mget ((checkConnectionCount sock1 (some ip)
      (removeClient cid (some ip) s)).2).connectionCounts ip =
      some (MaxConnectionsPerIp + 1) := by
    simp [checkConnectionCount, h10, MaxConnectionsPerIp, mget_mset_self]
  refine ⟨?_, h10, ?_, h11, ?_⟩
  · simp [checkConnectionCount, h, MaxConnectionsPerIp]
  · simp [checkConnectionCount, h10, MaxConnectionsPerIp]
  · set s2 := (checkConnectionCount sock1 (some ip) (removeClient cid (some ip) s)).2
      with hs2
    simp only [checkConnectionCount, h11, MaxConnectionsPerIp]
    simp

/-- C5 witness: the amended behaviour at the concrete state with 11 open
connections from "ip". -/
theorem admission_threshold_witness :
    mget c5s11.connectionCounts "ip" = some (MaxConnectionsPerIp + 1) ∧
    (checkConnectionCount "s0" (some "ip") c5s11).1 = false ∧
    mget (removeClient "c" (some "ip") c5s11).connectionCounts "ip" =
      some MaxConnectionsPerIp ∧
    (checkConnectionCount "s1" (some "ip") (removeClient "c" (some "ip") c5s11)).1 =
      true := by
  have h := admission_threshold c5s11 "ip" "s0" "s1" "s2" "c" (by decide)
  exact ⟨by decide, by rw [h.1], h.2.1, h.2.2.1⟩

/-- C4 helper: as long as every frame arrives no later than the window expiry
(so the lazy reset never fires), a run starting from counter c processes
min(length, 21 - c) frames and closes with the rate-limit code exactly when
c + length reaches 22. -/
theorem rateRun_window (ts : List Nat) : ∀ c E : Nat,
    c ≤ MaxMessagesPerSeconds + 1 → (∀ t ∈ ts, t ≤ E) →
    (rateRun ⟨c, E⟩ ts).1 = min ts.length (MaxMessagesPerSeconds + 1 - c) ∧
    ((rateRun ⟨c, E⟩ ts).2 = some RATE_LIMIT_EXCEEDED ↔
      MaxMessagesPerSeconds + 2 ≤ c + ts.length) := by
  induction ts with
  | nil =>
      intro c E hc hts
      constructor
      · simp [rateRun]
      · simp [rateRun, MaxMessagesPerSeconds] at hc ⊢
        omega
  | cons now rest ih =>
      intro c E hc hts
      have hnow : ¬ now > E := by
        have := hts now (by simp)
        omega
      by_cases hgate : c > MaxMessagesPerSeconds
      · have hc21 : c = MaxMessagesPerSeconds + 1 := by
          simp [MaxMessagesPerSeconds] at hgate hc ⊢
          omega
        constructor
        · simp [rateRun, hnow, hgate, hc21, MaxMessagesPerSeconds]
        · simp only [MaxMessagesPerSeconds] at hc21
          subst hc21
          simp [rateRun, hnow, MaxMessagesPerSeconds]
          omega
      · have hrec := ih (c + 1) E
          (by simp [MaxMessagesPerSeconds] at hgate ⊢; omega)
          (fun t ht => hts t (by simp [ht]))
        have hc20 : c ≤ MaxMessagesPerSeconds := by omega
        have hstep : rateRun ⟨c, E⟩ (now :: rest) =
            ((rateRun ⟨c + 1, E⟩ rest).1 + 1, (rateRun ⟨c + 1, E⟩ rest).2) := by
          rw [rateRun]
          simp [hnow, hgate]
        constructor
        · rw [hstep]
          dsimp only
          rw [hrec.1]
          simp only [List.length_cons, MaxMessagesPerSeconds] at hc20 ⊢
          simp only [min_def]
          split_ifs <;> omega
        · rw [hstep]
          simp only []
          rw [hrec.2]
          simp only [List.length_cons, MaxMessagesPerSeconds]
          omega

/-- C4 counterexample: 21 frames — strictly more than MaxMessagesPerSeconds =
20 — all arriving at t = 500 inside the initial 1-second window [0, 1000] are
every one processed normally and the connection is not closed, contrary to
the claimed closure. -/
theorem rate_limit_counterexample :
    MaxMessagesPerSeconds < 21 ∧
    rateRun (rateInit 0) (List.replicate 21 500) = (21, none) := by
  refine ⟨by decide, by decide⟩

/-- C4 (amended): within one window (no frame later than the expiry), a fresh
connection has exactly min(n, 21) frames processed and is closed with
RATE_LIMIT_EXCEEDED precisely when at least MaxMessagesPerSeconds + 2 = 22
frames arrive (the gate fires only once the counter already exceeds 20, i.e.
on the 22nd frame); and the lazy reset fires exactly when the wall clock
passes the expiry, setting the counter to 0 and the new expiry to `now`
itself rather than to a fresh 1-second horizon. -/
theorem rate_limit_behavior :
    (∀ E ts, (∀ t ∈ ts, t ≤ E) →
      (rateRun ⟨0, E⟩ ts).1 = min ts.length (MaxMessagesPerSeconds + 1) ∧
      ((rateRun ⟨0, E⟩ ts).2 = some RATE_LIMIT_EXCEEDED ↔
        MaxMessagesPerSeconds + 2 ≤ ts.length)) ∧
    (∀ c E now rest, E < now →
      rateRun ⟨c, E⟩ (now :: rest) = rateRun ⟨0, now⟩ (now :: rest)) := by
  constructor
  · intro E ts h
    have hr := rateRun_window ts 0 E (by omega) h
    simpa using hr
  · intro c E now rest h
    have h1 : now > E := h
    rw [rateRun, rateRun]
    simp [h1]

/-- C4 witness: from a fresh window expiring at 1000, 22 frames at t = 500
give 21 processed and a RATE_LIMIT_EXCEEDED closure. -/
theorem rate_limit_behavior_witness :
    (rateRun ⟨0, 1000⟩ (List.replicate 22 500)).1 =
      min (List.replicate 22 500).length (MaxMessagesPerSeconds + 1) ∧
    ((rateRun ⟨0, 1000⟩ (List.replicate 22 500)).2 = some RATE_LIMIT_EXCEEDED ↔
      MaxMessagesPerSeconds + 2 ≤ (List.replicate 22 500).length) :=
  rate_limit_behavior.1 1000 (List.replicate 22 500) (by decide)

/-- Broadcast characterisation: when the room and its code exist and every
member is registered, broadcastPeerList appends exactly one peer-list message
per member, carrying the full member list, the room code, and the room id. -/
theorem broadcastPeerList_outbox (rid : String) (s : ServerState)
    (peers : List String) (code : String)
    (hroom : mget s.rooms rid = some peers)
    (hcode : mget s.roomIdToCode rid = some code)
    (hreg : ∀ p ∈ peers, (mget s.clients p).isSome = true) :
    broadcastPeerList rid s =
      { s with outbox := s.outbox ++ peers.map (fun p => (p, SignalingMessage.peerList "" "" peers code rid)) } := by
  simp only [broadcastPeerList, hroom, hcode, broadcast]
  rw [List.filter_eq_self.mpr hreg]

/-- C1 counterexample: in the reachable state exS4 (room r1 = [A, B], both
registered), the disconnect of B leaves r1 non-empty with surviving member A,
yet the cleanup sends nothing at all — the outbox is unchanged — so no
peer-list broadcast reaches the survivors. -/
theorem disconnect_broadcast_counterexample :
    Reachable exS4 ∧
    mget (removeClient "B" (some "2.2.2.2") exS4).rooms "r1" = some ["A"] ∧
    mget (removeClient "B" (some "2.2.2.2") exS4).clients "A" = some ⟨some "r1"⟩ ∧
    (removeClient "B" (some "2.2.2.2") exS4).outbox = exS4.outbox :=
  ⟨reachable_exS4, by decide, by decide, by decide⟩

/-- C1 (amended): the disconnect cleanup removes the id and deletes emptied
rooms but sends no peer-list broadcast at all; every successful create, join,
and leave that leaves the room non-empty does broadcast a peer list carrying
exactly the surviving member ids, the room code, and the room id to every
current member registered in the client registry. -/
theorem join_leave_broadcast_disconnect_silent :
    (∀ cid ip s, (removeClient cid ip s).outbox = s.outbox) ∧
    (∀ s sid code freshId sock, mhas s.roomCodeToId code = false →
      (createRoom sid code freshId sock s).outbox =
        s.outbox ++ [(sid, SignalingMessage.peerList "" "" [sid] code freshId)]) ∧
    (∀ s rid cid code peers s1, mget s.rooms rid = some peers →
      mget s.roomIdToCode rid = some code →
      (∀ p ∈ peers, (mget s.clients p).isSome = true) →
      joinRoomById rid cid s = some s1 →
      s1.outbox = s.outbox ++ (peers ++ [cid]).map
        (fun p => (p, SignalingMessage.peerList "" "" (peers ++ [cid]) code rid))) ∧
    (∀ s sid info rid room code, mget s.clients sid = some info →
      info.roomId = some rid → mget s.rooms rid = some room →
      mget s.roomIdToCode rid = some code →
      (∀ p ∈ room, (mget s.clients p).isSome = true) →
      jsSpliceRemove room sid ≠ [] →
      (leaveRoom sid info s).outbox =
        s.outbox ++ (jsSpliceRemove room sid).map
          (fun p => (p, SignalingMessage.peerList "" ""
            (jsSpliceRemove room sid) code rid))) := by
  refine ⟨?_, ?_, ?_, ?_⟩
  · intro cid ip s
    cases ip <;> rfl
  · intro s sid code freshId sock h
    simp only [createRoom, h, Bool.false_eq_true, if_false]
    rw [broadcastPeerList_outbox freshId _ [sid] code
      (by simp [addRoom, mget_mset_self])
      (by simp [addRoom, mget_mset_self])
      (by
        intro p hp
        simp only [List.mem_singleton] at hp
        subst hp
        simp [addRoom, mget_mset_self])]
    simp [addRoom]
  · intro s rid cid code peers s1 hroom hcode hreg hjoin
    simp only [joinRoomById, hroom] at hjoin
    injection hjoin with hjoin
    rw [← hjoin]
    rw [broadcastPeerList_outbox rid _ (peers ++ [cid]) code
      (by simp [mget_mset_self])
      (by simpa using hcode)
      (by
        intro p hp
        rcases List.mem_append.mp hp with hp1 | hp1
        · exact mget_isSome_mset (hreg p hp1) cid ⟨some rid⟩
        · simp only [List.mem_singleton] at hp1
          subst hp1
          simp [mget_mset_self])]
  · intro s sid info rid room code hinfo hrid hroom hcode hreg hne
    have hlen : ¬ (jsSpliceRemove room sid).length = 0 := by
      intro hh
      exact hne (List.length_eq_zero.mp hh)
    simp only [leaveRoom, hrid, hroom, if_neg hlen]
    rw [broadcastPeerList_outbox rid _ (jsSpliceRemove room sid) code
      (by simp [mget_mset_self])
      (by simpa using hcode)
      (by
        intro p hp
        exact hreg p ((jsSpliceRemove_sublist room sid).subset hp))]

/-- C1 witness: in the state c1ws (room r1 = [A, B] with code AB12, both
registered), B's leave broadcasts the surviving list [A] with the code and
room id to the surviving member A. -/
theorem join_leave_broadcast_disconnect_silent_witness :
    (leaveRoom "B" ⟨some "r1"⟩ c1ws).outbox =
      c1ws.outbox ++ (jsSpliceRemove ["A", "B"] "B").map
        (fun p => (p, SignalingMessage.peerList "" ""
          (jsSpliceRemove ["A", "B"] "B") "AB12" "r1")) :=
  join_leave_broadcast_disconnect_silent.2.2.2 c1ws "B" ⟨some "r1"⟩ "r1"
    ["A", "B"] "AB12" (by decide) rfl (by decide) (by decide) (by decide) (by decide)
